import Mathlib

/-!
# Verification of the multipass alias dictionary (`alias_dict.cpp`)

Shallow embedding of `mp::AliasDict` and its JSON codec / persistence
protocol.  `std::unordered_map` is modelled as an association list whose
list order stands for the map's (unspecified) iteration order; all map
operations below mirror the member functions used by the source
(`operator[]`, `try_emplace`, `emplace`, `erase`, `at`, `count`).
Exceptions are modelled with `Except String`.
-/

/-- One aliased command: `mp::AliasDefinition` (fields `instance`, `command`,
`working_directory`).  The C++ field `instance` is spelled `instance_`
because `instance` is a Lean keyword. -/
structure AliasDefinition where
  instance_ : String
  command : String
  working_directory : String
deriving DecidableEq, Repr

/-- `mp::AliasContext`: map from alias name to definition. -/
abbrev AliasContext := List (String × AliasDefinition)

/-- The in-memory state of `mp::AliasDict`: the context map, the active
context name, and the `modified` (dirty) flag. -/
structure AliasDict where
  active_context : String
  aliases : List (String × AliasContext)
  modified : Bool
deriving DecidableEq, Repr

/-- Key lookup in an association list (first match), as `find`/`at`/`count`
of `std::unordered_map` and `operator[]` of `QJsonObject`. -/
def lookupKV (k : String) : List (String × α) → Option α
  | [] => none
  | (k', v) :: rest => if k' = k then some v else lookupKV k rest

/-- `m[k] = v` for `std::unordered_map`: replace the mapped value in place
when the key is present, insert (at the end, in iteration order) when
absent. -/
def mapSet (k : String) (v : α) : List (String × α) → List (String × α)
  | [] => [(k, v)]
  | (k', v') :: rest => if k' = k then (k', v) :: rest else (k', v') :: mapSet k v rest

/-- `emplace`/`try_emplace` of `std::unordered_map`: insert only when the
key is absent. -/
def emplace (m : List (String × α)) (k : String) (v : α) : List (String × α) :=
  match lookupKV k m with
  | some _ => m
  | none => m ++ [(k, v)]

/-- `erase(key)` of `std::unordered_map` (the erased count is
`(lookupKV k m).isSome` since keys are unique). -/
def eraseKey (k : String) : List (String × α) → List (String × α)
  | [] => []
  | (k', v') :: rest => if k' = k then eraseKey k rest else (k', v') :: eraseKey k rest

/-- Whether the keys of an association list are pairwise distinct (always
true of a real `std::unordered_map` / `QJsonObject`). -/
def keysNodup : List (String × α) → Bool
  | [] => true
  | (k, _) :: rest => (lookupKV k rest).isNone && keysNodup rest

/-- `AliasDict::set_active_context`. -/
def set_active_context (new_active_context : String) (d : AliasDict) : AliasDict :=
  { d with active_context := new_active_context,
           aliases := emplace d.aliases new_active_context [] }

/-- `AliasDict::add_alias`: `aliases[active_context].try_emplace(alias, command)`;
returns whether insertion happened, setting `modified` on success. -/
def add_alias (alias_name : String) (command : AliasDefinition) (d : AliasDict) :
    Bool × AliasDict :=
  let ctx := (lookupKV d.active_context d.aliases).getD []
  match lookupKV alias_name ctx with
  | some _ => (false, { d with aliases := mapSet d.active_context ctx d.aliases })
  | none =>
      (true, { d with aliases := mapSet d.active_context (ctx ++ [(alias_name, command)]) d.aliases,
                      modified := true })

/-- `AliasDict::exists_alias`. -/
def exists_alias (alias_name : String) (d : AliasDict) : Bool :=
  match lookupKV d.active_context d.aliases with
  | none => false
  | some ctx => (lookupKV alias_name ctx).isSome

/-- `AliasDict::remove_alias`: `aliases[active_context].erase(alias) > 0`
(note `operator[]` inserts an empty context when the active one is absent). -/
def remove_alias (alias_name : String) (d : AliasDict) : Bool × AliasDict :=
  let ctx := (lookupKV d.active_context d.aliases).getD []
  let removed := (lookupKV alias_name ctx).isSome
  let ctx' := eraseKey alias_name ctx
  if removed then
    (true, { d with aliases := mapSet d.active_context ctx' d.aliases, modified := true })
  else
    (false, { d with aliases := mapSet d.active_context ctx' d.aliases })

/-- `AliasDict::remove_context`. -/
def remove_context (context : String) (d : AliasDict) : Bool × AliasDict :=
  if (lookupKV context d.aliases).isSome then
    (true, { d with aliases := eraseKey context d.aliases, modified := true })
  else
    (false, d)

/-- The erase loop of `AliasDict::remove_aliases_for_instance`: returns the
names removed (in encounter order) and the surviving context. -/
def remove_matching (inst : String) : AliasContext → List String × AliasContext
  | [] => ([], [])
  | (alias_name, defn) :: rest =>
      let res := remove_matching inst rest
      if defn.instance_ = inst then (alias_name :: res.1, res.2)
      else (res.1, (alias_name, defn) :: res.2)

/-- `AliasDict::remove_aliases_for_instance` (again via `operator[]` on the
active context). -/
def remove_aliases_for_instance (inst : String) (d : AliasDict) :
    List String × AliasDict :=
  let ctx := (lookupKV d.active_context d.aliases).getD []
  let res := remove_matching inst ctx
  (res.1, { d with aliases := mapSet d.active_context res.2 d.aliases,
                   modified := d.modified || !res.1.isEmpty })

/-- `AliasDict::get_alias`: `aliases.at(active_context).at(alias)` with
`out_of_range` mapped to `none`. -/
def get_alias (alias_name : String) (d : AliasDict) : Option AliasDefinition :=
  match lookupKV d.active_context d.aliases with
  | none => none
  | some ctx => lookupKV alias_name ctx

/-- The filter predicate used by `sanitize_contexts`: a context is flagged
when it is not the active one and holds no aliases. -/
def empty_nonactive (active : String) (c : String × AliasContext) : Bool :=
  if c.1 = active then false else c.2.isEmpty

/-- `AliasDict::sanitize_contexts`: collect the names of the empty
non-active contexts, then erase them, marking `modified` when any existed. -/
def sanitize_contexts (d : AliasDict) : AliasDict :=
  let empty_contexts := (d.aliases.filter (empty_nonactive d.active_context)).map Prod.fst
  if empty_contexts.isEmpty then d
  else { d with aliases := empty_contexts.foldl (fun m c => eraseKey c m) d.aliases,
                modified := true }

/-! ## JSON layer

`QJsonValue`/`QJsonObject`, restricted to the shapes the codec touches.
An object is an association list of fields; the absent-key value
(`QJsonValue::Undefined`) is modelled by `JsonValue.null`, which behaves
identically under the accessors used here (`toString`, `toObject`,
`isString`). -/

/-- A JSON value as manipulated through `QJsonValue`. -/
inductive JsonValue where
  | null
  | bool (b : Bool)
  | str (s : String)
  | obj (fields : List (String × JsonValue))
deriving Repr

/-- `QJsonValue::toString()`: the string for string values, the null
string (here `""`) otherwise. -/
def toStringQ : JsonValue → String
  | .str s => s
  | _ => ""

/-- `QJsonValue::isString()`. -/
def isStringQ : JsonValue → Bool
  | .str _ => true
  | _ => false

/-- `QJsonValue::toObject()`: the fields for object values, empty
otherwise. -/
def toObjectQ : JsonValue → List (String × JsonValue)
  | .obj fields => fields
  | _ => []

/-- `QJsonObject::operator[]`: the stored value, or Undefined (modelled
`null`) when the key is absent. -/
def objLookup (record : List (String × JsonValue)) (k : String) : JsonValue :=
  (lookupKV k record).getD .null

/-- The anonymous-namespace validator `check_working_directory_string`:
throws unless the string is `"map"` or `"default"`. -/
def check_working_directory_string (dir : String) : Except String Unit :=
  if dir ≠ "map" ∧ dir ≠ "default" then
    Except.error ("invalid working_directory string " ++ dir)
  else
    Except.ok ()

/-! ## Codec: `AliasDict::to_json` -/

/-- The `alias_to_json` lambda inside `AliasDict::to_json`: validate the
working directory, then build the three-field record. -/
def alias_to_json (defn : AliasDefinition) : Except String JsonValue :=
  match check_working_directory_string defn.working_directory with
  | .error e => .error e
  | .ok _ =>
      .ok (.obj [("instance", .str defn.instance_),
                 ("command", .str defn.command),
                 ("working-directory", .str defn.working_directory)])

/-- The inner loop of `to_json`: insert each alias of one context into
`context_json` (accumulator `acc`, `QJsonObject::insert` = `mapSet`). -/
def context_to_json (ctx : AliasContext) (acc : List (String × JsonValue)) :
    Except String (List (String × JsonValue)) :=
  match ctx with
  | [] => .ok acc
  | (alias_name, defn) :: rest =>
      match alias_to_json defn with
      | .error e => .error e
      | .ok j => context_to_json rest (mapSet alias_name j acc)

/-- The outer loop of `to_json`: insert each serialized context into
`all_contexts_json`. -/
def contexts_to_json (cs : List (String × AliasContext))
    (acc : List (String × JsonValue)) : Except String (List (String × JsonValue)) :=
  match cs with
  | [] => .ok acc
  | (context_name, ctx) :: rest =>
      match context_to_json ctx [] with
      | .error e => .error e
      | .ok ctx_json => contexts_to_json rest (mapSet context_name (.obj ctx_json) acc)

/-- `AliasDict::to_json`: `{"active-context": ..., "contexts": {...}}`,
propagating the validation error of `check_working_directory_string`. -/
def to_json (d : AliasDict) : Except String JsonValue :=
  match contexts_to_json d.aliases [] with
  | .error e => .error e
  | .ok all_contexts_json =>
      .ok (.obj [("active-context", .str d.active_context),
                 ("contexts", .obj all_contexts_json)])

/-! ## Codec: `AliasDict::load_dict` (parsed-document part) -/

/-- The working-directory defaulting rule inside `records_to_context`:
keep the stored value only when it is a non-empty string, else
`"default"`. -/
def read_working_directory (record : List (String × JsonValue)) : String :=
  let rwd := objLookup record "working-directory"
  if isStringQ rwd ∧ toStringQ rwd ≠ "" then toStringQ rwd else "default"

/-- The `records_to_context` lambda of `load_dict`: parse the entries in
iteration order into `context`; an entry whose value is an empty object
(or not an object, as `toObject` yields an empty object then) `break`s. -/
def records_to_context (records : List (String × JsonValue)) (context : AliasContext) :
    Except String AliasContext :=
  match records with
  | [] => .ok context
  | (alias_name, v) :: rest =>
      let record := toObjectQ v
      if record.isEmpty then .ok context
      else
        let inst := toStringQ (objLookup record "instance")
        let command := toStringQ (objLookup record "command")
        let working_directory := read_working_directory record
        match check_working_directory_string working_directory with
        | .error e => .error e
        | .ok _ =>
            records_to_context rest (emplace context alias_name ⟨inst, command, working_directory⟩)

/-- The new-format loop of `load_dict`: one `records_to_context` per entry
of the `"contexts"` object, `emplace`d into the dictionary. -/
def contexts_from_json (context_array : List (String × JsonValue))
    (acc : List (String × AliasContext)) : Except String (List (String × AliasContext)) :=
  match context_array with
  | [] => .ok acc
  | (context_name, v) :: rest =>
      match records_to_context (toObjectQ v) [] with
      | .error e => .error e
      | .ok context => contexts_from_json rest (emplace acc context_name context)

/-- `AliasDict::load_dict` from the parsed top-level object (`records`)
on: `aliases.clear()`, the empty-document early return, the
`"active-context"` schema detection, and the two parsing paths.  The
file-handling steps before this point (absent file, unreadable file,
unparsable JSON) end in the same early returns and are not modelled
separately. -/
def load_dict (records : List (String × JsonValue)) (d : AliasDict) :
    Except String AliasDict :=
  let d := { d with aliases := [] }
  if records.isEmpty then .ok d
  else if (lookupKV "active-context" records).isSome then
    let active_context := toStringQ (objLookup records "active-context")
    let context_array := toObjectQ (objLookup records "contexts")
    match contexts_from_json context_array [] with
    | .error e => .error e
    | .ok aliases => .ok { d with active_context := active_context, aliases := aliases }
  else
    match records_to_context records [] with
    | .error e => .error e
    | .ok default_context =>
        .ok { d with active_context := "default",
                     aliases := emplace [] "default" default_context }

/-! ## Persistence engine: `AliasDict::save_dict`

The filesystem is modelled by the contents of the three files the function
touches (target config file, `.bak` backup, staging temp file); the
success/failure of each fallible `MP_FILEOPS` call is an input (the
environment), so every reachable branch of `save_dict` is covered.  A
thrown exception is an `Except.error` paired with the filesystem state at
the throw point. -/

/-- The three on-disk files of the save protocol; `none` = absent, `some j`
= present with serialized document `j`. -/
structure FSState where
  target : Option JsonValue
  backup : Option JsonValue
  temp : Option JsonValue

/-- Outcomes of the fallible `MP_FILEOPS` calls inside `save_dict`. -/
structure FileOpsEnv where
  open_temp_ok : Bool
  remove_backup_ok : Bool
  rename_target_ok : Bool
  rename_temp_ok : Bool

/-- `AliasDict::save_dict`, step for step: sanitize, serialize (throws on
invalid working directory, before any file is created), open the temp
file (on failure the function silently falls through and returns), write
the document to the temp file, rotate target to `.bak` when a target
exists (throwing when removal of an old backup or the rename fails), and
finally rename the temp file onto the target.  Note no branch clears
`modified`. -/
def save_dict (env : FileOpsEnv) (d : AliasDict) (fs : FSState) :
    Except String AliasDict × FSState :=
  let d := sanitize_contexts d
  match to_json d with
  | .error e => (.error e, fs)
  | .ok dict_json =>
      if env.open_temp_ok then
        let fs := { fs with temp := some dict_json }
        match fs.target with
        | some target_content =>
            if fs.backup.isSome ∧ env.remove_backup_ok = false then
              (.error "cannot remove old aliases backup file", fs)
            else
              let fs := { fs with backup := none }
              if env.rename_target_ok = false then
                (.error "cannot rename aliases config to backup", fs)
              else
                let fs := { fs with backup := some target_content, target := none }
                if env.rename_temp_ok = false then
                  (.error "cannot create aliases config file", fs)
                else
                  (.ok d, { fs with target := some dict_json, temp := none })
        | none =>
            if env.rename_temp_ok = false then
              (.error "cannot create aliases config file", fs)
            else
              (.ok d, { fs with target := some dict_json, temp := none })
      else
        (.ok d, fs)

/-! ## Derived notions used by the claims -/

/-- `"default"` or `"map"`: the values `check_working_directory_string`
accepts. -/
def valid_wd (s : String) : Bool :=
  s == "default" || s == "map"

/-- Well-formedness of an in-memory dictionary as the C++ maps guarantee
it: distinct context keys, distinct alias keys per context, and (for
serializability) valid working directories. -/
def wellFormed (d : AliasDict) : Bool :=
  keysNodup d.aliases &&
    d.aliases.all (fun c => keysNodup c.2 &&
      c.2.all (fun a => valid_wd a.2.working_directory))

/-- The (context name, alias name, definition) triples of a dictionary,
in enumeration order. -/
def triples (d : AliasDict) : List (String × String × AliasDefinition) :=
  (d.aliases.map (fun c => c.2.map (fun a => (c.1, a.1, a.2)))).flatten

/-- The record `alias_to_json` produces for a valid definition. -/
def serRecord (defn : AliasDefinition) : JsonValue :=
  .obj [("instance", .str defn.instance_),
        ("command", .str defn.command),
        ("working-directory", .str defn.working_directory)]

/-- The object `to_json` produces for one context. -/
def serContext (ctx : AliasContext) : List (String × JsonValue) :=
  ctx.map (fun a => (a.1, serRecord a.2))

/-- The `"contexts"` object `to_json` produces. -/
def serContexts (cs : List (String × AliasContext)) : List (String × JsonValue) :=
  cs.map (fun c => (c.1, JsonValue.obj (serContext c.2)))

/-! ## Concrete instances used by witnesses and counterexamples -/

/-- All `MP_FILEOPS` calls succeed. -/
def envAllOk : FileOpsEnv := ⟨true, true, true, true⟩

/-- Opening the temporary staging file fails; every other call succeeds. -/
def envOpenFail : FileOpsEnv := ⟨false, true, true, true⟩

/-- Empty filesystem: no config file, no backup, no temp file. -/
def fsEmpty : FSState := ⟨none, none, none⟩

/-- A dictionary with one alias in the active context and a dirty flag. -/
def dC1w : AliasDict :=
  ⟨"c", [("c", [("a", ⟨"i", "m", "map"⟩)])], true⟩

/-- The document `to_json` serializes `dC1w` to. -/
def jC1w : JsonValue :=
  .obj [("active-context", .str "c"),
        ("contexts", .obj [("c", .obj [("a", serRecord ⟨"i", "m", "map"⟩)])])]

/-- Filesystem with an existing target config file. -/
def fsC2 : FSState := ⟨some (JsonValue.str "old"), none, none⟩

/-- A two-context dictionary used by the round-trip witness. -/
def dC3w : AliasDict :=
  ⟨"work",
   [("default", [("ll", ⟨"vm1", "ls", "default"⟩)]),
    ("work", [("gg", ⟨"vm2", "grep", "map"⟩), ("hh", ⟨"vm2", "head", "default"⟩)])],
   false⟩

/-- The document `to_json` serializes `dC3w` to (its top-level fields). -/
def fieldsC3w : List (String × JsonValue) :=
  [("active-context", .str "work"),
   ("contexts",
    .obj [("default", .obj [("ll", serRecord ⟨"vm1", "ls", "default"⟩)]),
          ("work", .obj [("gg", serRecord ⟨"vm2", "grep", "map"⟩),
                         ("hh", serRecord ⟨"vm2", "head", "default"⟩)])])]

/-- A fresh pre-load dictionary, as default-constructed before `load_dict`. -/
def d0w : AliasDict := ⟨"", [], false⟩

/-- A pre-load dictionary state whose active context is not `"default"`. -/
def dC4 : AliasDict := ⟨"x", [("a", [])], false⟩

/-- A legacy (flat, no `"active-context"`) document with one alias and no
working-directory field. -/
def recordsC4 : List (String × JsonValue) :=
  [("x", .obj [("instance", .str "vm1"), ("command", .str "ls")])]

/-- A dictionary with two contexts; the active one holds aliases of two
instances. -/
def dC5 : AliasDict :=
  ⟨"default",
   [("default", [("ll", ⟨"vm1", "ls", "default"⟩), ("gg", ⟨"vm2", "grep", "map"⟩),
                 ("l2", ⟨"vm1", "ls -la", "map"⟩)]),
    ("work", [("ww", ⟨"vm1", "w", "default"⟩)])],
   false⟩

/-- A dictionary with an empty active context, an empty non-active context
and a populated context. -/
def dC6 : AliasDict :=
  ⟨"empty-active",
   [("empty-active", []), ("old", []), ("full", [("a", ⟨"i", "c", "default"⟩)])],
   false⟩

/-- A dictionary holding an alias whose working directory is not one of
the two valid literals. -/
def dC7 : AliasDict :=
  ⟨"default", [("default", [("x", ⟨"vm", "c", "bogus"⟩)])], false⟩

/-- A clean dictionary whose active context does not contain `"new"`. -/
def dC8 : AliasDict :=
  ⟨"default", [("default", [("ll", ⟨"vm1", "ls", "default"⟩)])], false⟩

/-- A dictionary whose context map has no entry for the active context. -/
def dC10 : AliasDict :=
  ⟨"missing", [("other", [("a", ⟨"i", "c", "map"⟩)])], false⟩

/-! ## Association-list lemmas -/

theorem lookupKV_eq_none_iff {α : Type} (k : String) (m : List (String × α)) :
    lookupKV k m = none ↔ ∀ p ∈ m, p.1 ≠ k := by
  induction m with
  | nil => simp [lookupKV]
  | cons p rest ih =>
      obtain ⟨k', v⟩ := p
      simp only [lookupKV, List.mem_cons, forall_eq_or_imp]
      by_cases h : k' = k
      · subst h
        simp
      · simp [h, ih]

theorem lookupKV_append_of_none {α : Type} (k : String) (m m' : List (String × α))
    (h : lookupKV k m = none) : lookupKV k (m ++ m') = lookupKV k m' := by
  induction m with
  | nil => simp
  | cons p rest ih =>
      obtain ⟨k', v⟩ := p
      by_cases hk : k' = k
      · simp [lookupKV, hk] at h
      · simp only [lookupKV, List.cons_append] at h ⊢
        rw [if_neg hk] at h ⊢
        exact ih h

theorem lookupKV_singleton_self {α : Type} (k : String) (v : α) :
    lookupKV k [(k, v)] = some v := by
  simp [lookupKV]

theorem mapSet_lookup_self {α : Type} (k : String) (v : α) (m : List (String × α)) :
    lookupKV k (mapSet k v m) = some v := by
  induction m with
  | nil => simp [mapSet, lookupKV]
  | cons p rest ih =>
      obtain ⟨k', v'⟩ := p
      by_cases h : k' = k
      · simp [mapSet, lookupKV, h]
      · simp [mapSet, lookupKV, h, ih]

theorem mapSet_lookup_other {α : Type} (k c : String) (v : α) (m : List (String × α))
    (h : c ≠ k) : lookupKV c (mapSet k v m) = lookupKV c m := by
  induction m with
  | nil => simp [mapSet, lookupKV, Ne.symm h]
  | cons p rest ih =>
      obtain ⟨k', v'⟩ := p
      by_cases hk : k' = k
      · subst hk
        simp [mapSet, lookupKV, Ne.symm h]
      · simp [mapSet, lookupKV, hk, ih]

theorem mapSet_of_lookup_none {α : Type} (k : String) (v : α) (m : List (String × α))
    (h : lookupKV k m = none) : mapSet k v m = m ++ [(k, v)] := by
  induction m with
  | nil => simp [mapSet]
  | cons p rest ih =>
      obtain ⟨k', v'⟩ := p
      by_cases hk : k' = k
      · simp [lookupKV, hk] at h
      · simp only [lookupKV, hk, if_false] at h
        simp [mapSet, hk, ih h]

theorem emplace_of_lookup_none {α : Type} (m : List (String × α)) (k : String) (v : α)
    (h : lookupKV k m = none) : emplace m k v = m ++ [(k, v)] := by
  simp [emplace, h]

theorem eraseKey_eq_filter {α : Type} (k : String) (m : List (String × α)) :
    eraseKey k m = m.filter (fun p => p.1 != k) := by
  induction m with
  | nil => simp [eraseKey]
  | cons p rest ih =>
      obtain ⟨k', v'⟩ := p
      by_cases h : k' = k
      · simp [eraseKey, h, ih]
      · simp [eraseKey, h, ih, bne_iff_ne]

theorem keysNodup_unique {α : Type} {m : List (String × α)} (h : keysNodup m = true)
    {c c' : String × α} (hc : c ∈ m) (hc' : c' ∈ m) (hk : c.1 = c'.1) : c = c' := by
  induction m with
  | nil => cases hc
  | cons p rest ih =>
      obtain ⟨k', v'⟩ := p
      simp only [keysNodup, Bool.and_eq_true, Option.isNone_iff_eq_none] at h
      have hnone := (lookupKV_eq_none_iff k' rest).mp h.1
      rcases List.mem_cons.mp hc with rfl | hcm
      · rcases List.mem_cons.mp hc' with rfl | hcm'
        · rfl
        · exact absurd hk.symm (hnone c' hcm')
      · rcases List.mem_cons.mp hc' with rfl | hcm'
        · exact absurd hk (hnone c hcm)
        · exact ih h.2 hcm hcm'

/-! ## Sanitize lemmas -/

theorem foldl_eraseKey_eq_filter {α : Type} (ns : List String) (m : List (String × α)) :
    ns.foldl (fun m c => eraseKey c m) m = m.filter (fun p => !ns.contains p.1) := by
  induction ns generalizing m with
  | nil => simp
  | cons n ns ih =>
      rw [List.foldl_cons, ih, eraseKey_eq_filter, List.filter_filter]
      apply List.filter_congr
      intro p _
      have h1 : (p.1 == n) = decide (n = p.1) := by
        rw [beq_eq_decide]
        exact decide_eq_decide.mpr eq_comm
      simp [List.contains_cons, h1, Bool.and_comm, bne, beq_eq_decide]
      rw [show decide (n = p.1) = decide (p.1 = n) from decide_eq_decide.mpr eq_comm]

theorem sanitize_active_eq (d : AliasDict) :
    (sanitize_contexts d).active_context = d.active_context := by
  simp only [sanitize_contexts]
  split <;> rfl

theorem sanitize_modified_eq (d : AliasDict) :
    (sanitize_contexts d).modified
      = (d.modified || d.aliases.any (empty_nonactive d.active_context)) := by
  simp only [sanitize_contexts]
  split
  · next hempty =>
      simp only [List.isEmpty_iff, List.map_eq_nil_iff, List.filter_eq_nil_iff] at hempty
      have : d.aliases.any (empty_nonactive d.active_context) = false := by
        simp only [List.any_eq_false]
        exact fun c hc => by simpa using hempty c hc
      simp [this]
  · next hempty =>
      simp only [List.isEmpty_iff, List.map_eq_nil_iff, List.filter_eq_nil_iff] at hempty
      push_neg at hempty
      obtain ⟨c, hc, hp⟩ := hempty
      have : d.aliases.any (empty_nonactive d.active_context) = true :=
        List.any_eq_true.mpr ⟨c, hc, by simpa using hp⟩
      simp [this]

theorem sanitize_aliases_eq (d : AliasDict) (hnd : keysNodup d.aliases = true) :
    (sanitize_contexts d).aliases
      = d.aliases.filter (fun c => !empty_nonactive d.active_context c) := by
  simp only [sanitize_contexts]
  split
  · next hempty =>
      simp only [List.isEmpty_iff, List.map_eq_nil_iff, List.filter_eq_nil_iff] at hempty
      rw [eq_comm, List.filter_eq_self]
      intro c hc
      simpa using hempty c hc
  · next hempty =>
      rw [foldl_eraseKey_eq_filter]
      apply List.filter_congr
      intro c hc
      congr 1
      rw [Bool.eq_iff_iff]
      simp only [List.contains_eq_any_beq, List.any_eq_true, List.mem_map]
      constructor
      · rintro ⟨x, ⟨c', hc', hpc'⟩, hbeq⟩
        have hcc : c.1 = c'.1 := (beq_iff_eq.mp hbeq).trans hpc'.symm
        have hceq : c = c' := keysNodup_unique hnd hc (List.mem_of_mem_filter hc') hcc
        exact hceq ▸ List.of_mem_filter hc'
      · intro hp
        exact ⟨c.1, ⟨c, List.mem_filter.mpr ⟨hc, hp⟩, rfl⟩, beq_self_eq_true _⟩

/-! ## Working-directory validation lemmas -/

theorem check_ok_iff (dir : String) :
    check_working_directory_string dir = Except.ok () ↔ valid_wd dir = true := by
  unfold check_working_directory_string valid_wd
  by_cases h1 : dir = "map" <;> by_cases h2 : dir = "default" <;> simp [h1, h2]

theorem valid_wd_cases {s : String} (h : valid_wd s = true) : s = "default" ∨ s = "map" := by
  unfold valid_wd at h
  simp only [Bool.or_eq_true] at h
  rcases h with h | h
  · exact Or.inl (beq_iff_eq.mp h)
  · exact Or.inr (beq_iff_eq.mp h)

theorem valid_wd_ne_empty {s : String} (h : valid_wd s = true) : s ≠ "" := by
  rcases valid_wd_cases h with rfl | rfl <;> decide

/-! ## Serialization lemmas -/

theorem alias_to_json_of_valid (defn : AliasDefinition)
    (h : valid_wd defn.working_directory = true) :
    alias_to_json defn = .ok (serRecord defn) := by
  unfold alias_to_json
  rw [(check_ok_iff _).mpr h]
  rfl

theorem lookupKV_singleton_of_ne {α : Type} (k n : String) (v : α) (h : n ≠ k) :
    lookupKV k [(n, v)] = none := by
  simp [lookupKV, h]

theorem context_to_json_of_wf (ctx : AliasContext) :
    ∀ acc : List (String × JsonValue),
    (∀ a ∈ ctx, valid_wd a.2.working_directory = true) →
    (∀ a ∈ ctx, lookupKV a.1 acc = none) →
    keysNodup ctx = true →
    context_to_json ctx acc = .ok (acc ++ serContext ctx) := by
  induction ctx with
  | nil =>
      intro acc _ _ _
      simp [context_to_json, serContext]
  | cons a rest ih =>
      intro acc hv habs hnd
      obtain ⟨n, defn⟩ := a
      simp only [keysNodup, Bool.and_eq_true, Option.isNone_iff_eq_none] at hnd
      have hvh : valid_wd defn.working_directory = true :=
        hv (n, defn) (List.mem_cons_self _ _)
      have hnabs : ∀ a ∈ rest, lookupKV a.1 (acc ++ [(n, serRecord defn)]) = none := by
        intro a ha
        rw [lookupKV_append_of_none _ _ _ (habs a (List.mem_cons_of_mem _ ha))]
        exact lookupKV_singleton_of_ne _ _ _
          (fun he => (lookupKV_eq_none_iff n rest).mp hnd.1 a ha he.symm)
      simp only [context_to_json, alias_to_json_of_valid defn hvh]
      rw [mapSet_of_lookup_none _ _ _ (habs (n, defn) (List.mem_cons_self _ _))]
      rw [ih (acc ++ [(n, serRecord defn)])
            (fun a ha => hv a (List.mem_cons_of_mem _ ha)) hnabs hnd.2]
      simp [serContext]

theorem contexts_to_json_of_wf (cs : List (String × AliasContext)) :
    ∀ acc : List (String × JsonValue),
    (∀ c ∈ cs, (∀ a ∈ c.2, valid_wd a.2.working_directory = true) ∧ keysNodup c.2 = true) →
    (∀ c ∈ cs, lookupKV c.1 acc = none) →
    keysNodup cs = true →
    contexts_to_json cs acc = .ok (acc ++ serContexts cs) := by
  induction cs with
  | nil =>
      intro acc _ _ _
      simp [contexts_to_json, serContexts]
  | cons c rest ih =>
      intro acc hwf habs hnd
      obtain ⟨name, ctx⟩ := c
      simp only [keysNodup, Bool.and_eq_true, Option.isNone_iff_eq_none] at hnd
      have hwfh := hwf (name, ctx) (List.mem_cons_self _ _)
      have hctx : context_to_json ctx [] = .ok (serContext ctx) := by
        have := context_to_json_of_wf ctx [] hwfh.1
          (fun a _ => rfl) hwfh.2
        simpa using this
      have hnabs : ∀ c ∈ rest,
          lookupKV c.1 (acc ++ [(name, JsonValue.obj (serContext ctx))]) = none := by
        intro c hc
        rw [lookupKV_append_of_none _ _ _ (habs c (List.mem_cons_of_mem _ hc))]
        exact lookupKV_singleton_of_ne _ _ _
          (fun he => (lookupKV_eq_none_iff name rest).mp hnd.1 c hc he.symm)
      simp only [contexts_to_json, hctx]
      rw [mapSet_of_lookup_none _ _ _ (habs (name, ctx) (List.mem_cons_self _ _))]
      rw [ih (acc ++ [(name, JsonValue.obj (serContext ctx))])
            (fun c hc => hwf c (List.mem_cons_of_mem _ hc)) hnabs hnd.2]
      simp [serContexts]

theorem wellFormed_parts {d : AliasDict} (h : wellFormed d = true) :
    keysNodup d.aliases = true ∧
    ∀ c ∈ d.aliases, keysNodup c.2 = true ∧
      ∀ a ∈ c.2, valid_wd a.2.working_directory = true := by
  unfold wellFormed at h
  rw [Bool.and_eq_true, List.all_eq_true] at h
  refine ⟨h.1, fun c hc => ?_⟩
  have := h.2 c hc
  rw [Bool.and_eq_true, List.all_eq_true] at this
  exact ⟨this.1, this.2⟩

theorem to_json_of_wf (d : AliasDict) (h : wellFormed d = true) :
    to_json d = .ok (.obj [("active-context", .str d.active_context),
                           ("contexts", .obj (serContexts d.aliases))]) := by
  obtain ⟨hnd, hall⟩ := wellFormed_parts h
  have hctxs : contexts_to_json d.aliases [] = .ok (serContexts d.aliases) := by
    have := contexts_to_json_of_wf d.aliases []
      (fun c hc => ⟨(hall c hc).2, (hall c hc).1⟩) (fun c _ => rfl) hnd
    simpa using this
  simp only [to_json, hctxs]

/-! ## Deserialization lemmas -/

theorem read_working_directory_str (record : List (String × JsonValue)) (wd : String)
    (hl : objLookup record "working-directory" = .str wd) (h : wd ≠ "") :
    read_working_directory record = wd := by
  simp only [read_working_directory, hl]
  rw [if_pos ⟨rfl, h⟩]
  rfl

theorem records_to_context_cons_serRecord (n : String) (dfn : AliasDefinition)
    (rest : List (String × JsonValue)) (acc : AliasContext)
    (hv : valid_wd dfn.working_directory = true) :
    records_to_context ((n, serRecord dfn) :: rest) acc
      = records_to_context rest (emplace acc n dfn) := by
  have hrwd : read_working_directory
      [("instance", .str dfn.instance_), ("command", .str dfn.command),
       ("working-directory", .str dfn.working_directory)] = dfn.working_directory :=
    read_working_directory_str _ _ rfl (valid_wd_ne_empty hv)
  simp only [records_to_context, serRecord, toObjectQ, List.isEmpty_cons, Bool.false_eq_true,
    if_false, hrwd]
  rw [(check_ok_iff _).mpr hv]
  rfl

theorem records_to_context_of_wf (ctx : AliasContext) :
    ∀ acc : AliasContext,
    (∀ a ∈ ctx, valid_wd a.2.working_directory = true) →
    (∀ a ∈ ctx, lookupKV a.1 acc = none) →
    keysNodup ctx = true →
    records_to_context (serContext ctx) acc = .ok (acc ++ ctx) := by
  induction ctx with
  | nil =>
      intro acc _ _ _
      simp [records_to_context, serContext]
  | cons a rest ih =>
      intro acc hv habs hnd
      obtain ⟨n, defn⟩ := a
      simp only [keysNodup, Bool.and_eq_true, Option.isNone_iff_eq_none] at hnd
      have hvh : valid_wd defn.working_directory = true :=
        hv (n, defn) (List.mem_cons_self _ _)
      have habsh := habs (n, defn) (List.mem_cons_self _ _)
      have hnabs : ∀ a ∈ rest, lookupKV a.1 (acc ++ [(n, defn)]) = none := by
        intro a ha
        rw [lookupKV_append_of_none _ _ _ (habs a (List.mem_cons_of_mem _ ha))]
        exact lookupKV_singleton_of_ne _ _ _
          (fun he => (lookupKV_eq_none_iff n rest).mp hnd.1 a ha he.symm)
      simp only [serContext, List.map_cons]
      rw [records_to_context_cons_serRecord n defn _ acc hvh,
        emplace_of_lookup_none _ _ _ habsh]
      have := ih (acc ++ [(n, defn)])
        (fun a ha => hv a (List.mem_cons_of_mem _ ha)) hnabs hnd.2
      rw [show serContext rest = rest.map (fun a => (a.1, serRecord a.2)) from rfl] at this
      rw [this]
      simp

theorem contexts_from_json_of_wf (cs : List (String × AliasContext)) :
    ∀ acc : List (String × AliasContext),
    (∀ c ∈ cs, (∀ a ∈ c.2, valid_wd a.2.working_directory = true) ∧ keysNodup c.2 = true) →
    (∀ c ∈ cs, lookupKV c.1 acc = none) →
    keysNodup cs = true →
    contexts_from_json (serContexts cs) acc = .ok (acc ++ cs) := by
  induction cs with
  | nil =>
      intro acc _ _ _
      simp [contexts_from_json, serContexts]
  | cons c rest ih =>
      intro acc hwf habs hnd
      obtain ⟨name, ctx⟩ := c
      simp only [keysNodup, Bool.and_eq_true, Option.isNone_iff_eq_none] at hnd
      have hwfh := hwf (name, ctx) (List.mem_cons_self _ _)
      have hctx : records_to_context (serContext ctx) [] = .ok ctx := by
        have := records_to_context_of_wf ctx [] hwfh.1 (fun a _ => rfl) hwfh.2
        simpa using this
      have hnabs : ∀ c ∈ rest, lookupKV c.1 (acc ++ [(name, ctx)]) = none := by
        intro c hc
        rw [lookupKV_append_of_none _ _ _ (habs c (List.mem_cons_of_mem _ hc))]
        exact lookupKV_singleton_of_ne _ _ _
          (fun he => (lookupKV_eq_none_iff name rest).mp hnd.1 c hc he.symm)
      simp only [serContexts, List.map_cons]
      simp only [contexts_from_json, toObjectQ, hctx]
      rw [emplace_of_lookup_none _ _ _ (habs (name, ctx) (List.mem_cons_self _ _))]
      have := ih (acc ++ [(name, ctx)])
        (fun c hc => hwf c (List.mem_cons_of_mem _ hc)) hnabs hnd.2
      rw [show serContexts rest = rest.map (fun c => (c.1, JsonValue.obj (serContext c.2)))
        from rfl] at this
      rw [this]
      simp

/-! ## Serialization-success implies validity (for the abort-on-invalid claim) -/

theorem context_to_json_ok_valid (ctx : AliasContext) :
    ∀ (acc res : List (String × JsonValue)), context_to_json ctx acc = .ok res →
    ∀ a ∈ ctx, valid_wd a.2.working_directory = true := by
  induction ctx with
  | nil =>
      intro acc res _ a ha
      cases ha
  | cons p rest ih =>
      intro acc res h a ha
      obtain ⟨n, dfn⟩ := p
      simp only [context_to_json] at h
      cases hj : alias_to_json dfn with
      | error e => rw [hj] at h; cases h
      | ok j =>
          rw [hj] at h
          rcases List.mem_cons.mp ha with rfl | ha'
          · unfold alias_to_json at hj
            cases hc : check_working_directory_string dfn.working_directory with
            | error e => rw [hc] at hj; cases hj
            | ok u => cases u; exact (check_ok_iff _).mp hc
          · exact ih _ _ h a ha'

theorem contexts_to_json_ok_valid (cs : List (String × AliasContext)) :
    ∀ (acc res : List (String × JsonValue)), contexts_to_json cs acc = .ok res →
    ∀ c ∈ cs, ∀ a ∈ c.2, valid_wd a.2.working_directory = true := by
  induction cs with
  | nil =>
      intro acc res _ c hc
      cases hc
  | cons p rest ih =>
      intro acc res h c hc
      obtain ⟨name, ctx⟩ := p
      simp only [contexts_to_json] at h
      cases hj : context_to_json ctx [] with
      | error e => rw [hj] at h; cases h
      | ok ctxj =>
          rw [hj] at h
          rcases List.mem_cons.mp hc with rfl | hc'
          · exact context_to_json_ok_valid ctx [] ctxj hj
          · exact ih _ _ h c hc'

theorem to_json_ok_valid (d : AliasDict) (j : JsonValue) (h : to_json d = .ok j) :
    ∀ c ∈ d.aliases, ∀ a ∈ c.2, valid_wd a.2.working_directory = true := by
  unfold to_json at h
  cases hc : contexts_to_json d.aliases [] with
  | error e => rw [hc] at h; cases h
  | ok r => exact contexts_to_json_ok_valid _ _ _ hc

/-! ## Round-trip composition -/

theorem load_of_to_json (d d₀ : AliasDict) (h : wellFormed d = true) :
    load_dict [("active-context", .str d.active_context),
               ("contexts", .obj (serContexts d.aliases))] d₀
      = .ok { d₀ with active_context := d.active_context, aliases := d.aliases } := by
  obtain ⟨hnd, hall⟩ := wellFormed_parts h
  have hcs : contexts_from_json (serContexts d.aliases) [] = .ok d.aliases := by
    have := contexts_from_json_of_wf d.aliases []
      (fun c hc => ⟨(hall c hc).2, (hall c hc).1⟩) (fun c _ => rfl) hnd
    simpa using this
  have hred : load_dict [("active-context", .str d.active_context),
      ("contexts", .obj (serContexts d.aliases))] d₀
      = match contexts_from_json (serContexts d.aliases) [] with
        | .error e => .error e
        | .ok aliases =>
            .ok { d₀ with active_context := d.active_context, aliases := aliases } := rfl
  rw [hred, hcs]

/-! ## Save lemmas -/

theorem save_ok_dict (env : FileOpsEnv) (d d' : AliasDict) (fs fs' : FSState)
    (h : save_dict env d fs = (.ok d', fs')) : d' = sanitize_contexts d := by
  cases hj : to_json (sanitize_contexts d) with
  | error e =>
      simp only [save_dict, hj] at h
      simp at h
  | ok j =>
      simp only [save_dict, hj] at h
      split at h
      · split at h
        · split at h
          · simp at h
          · split at h
            · simp at h
            · split at h
              · simp at h
              · simp only [Prod.mk.injEq, Except.ok.injEq] at h
                exact h.1.symm
        · split at h
          · simp at h
          · simp only [Prod.mk.injEq, Except.ok.injEq] at h
            exact h.1.symm
      · simp only [Prod.mk.injEq, Except.ok.injEq] at h
        exact h.1.symm

/-! ## remove_matching characterization -/

theorem remove_matching_fst (inst : String) (ctx : AliasContext) :
    (remove_matching inst ctx).1
      = (ctx.filter (fun a => a.2.instance_ == inst)).map Prod.fst := by
  induction ctx with
  | nil => simp [remove_matching]
  | cons a rest ih =>
      obtain ⟨n, dfn⟩ := a
      by_cases h : dfn.instance_ = inst
      · simp [remove_matching, h, ih]
      · simp [remove_matching, h, ih, List.filter_cons, beq_iff_eq]

theorem remove_matching_snd (inst : String) (ctx : AliasContext) :
    (remove_matching inst ctx).2 = ctx.filter (fun a => a.2.instance_ != inst) := by
  induction ctx with
  | nil => simp [remove_matching]
  | cons a rest ih =>
      obtain ⟨n, dfn⟩ := a
      by_cases h : dfn.instance_ = inst
      · simp [remove_matching, h, ih, List.filter_cons, bne_iff_ne]
      · simp [remove_matching, h, ih, List.filter_cons, bne_iff_ne]

/-! ## Claims -/

/-- C1 (amended): a successful `save_dict` does **not** clear the dirty
flag: the saved dictionary is exactly the sanitized one, so the flag stays
`true` whenever it was `true` before the save. -/
theorem claim_C1 (env : FileOpsEnv) (d d' : AliasDict) (fs fs' : FSState)
    (hsave : save_dict env d fs = (.ok d', fs'))
    (hm : d.modified = true) :
    d'.modified = true := by
  rw [save_ok_dict env d d' fs fs' hsave, sanitize_modified_eq, hm, Bool.true_or]

/-- C1 witness: a concrete dirty dictionary saved with every file
operation succeeding still has `modified = true`. -/
theorem claim_C1_witness : dC1w.modified = true :=
  claim_C1 envAllOk dC1w dC1w fsEmpty ⟨some jC1w, none, none⟩ rfl rfl

/-- C1 counterexample to the claim as stated: this `save_dict` call
completes without error, yet the returned dictionary still has
`modified = true` — the dirty flag is not cleared. -/
theorem claim_C1_cex :
    (save_dict envAllOk dC1w fsEmpty).1 = Except.ok dC1w ∧ dC1w.modified = true :=
  ⟨rfl, rfl⟩

/-- C2 (amended): when opening the temporary staging file fails,
`save_dict` does **not** raise: it silently returns (only the sanitize
step has happened) and the filesystem — in particular the target file —
is completely untouched. -/
theorem claim_C2 (env : FileOpsEnv) (d : AliasDict) (fs : FSState) (j : JsonValue)
    (hopen : env.open_temp_ok = false)
    (hj : to_json (sanitize_contexts d) = .ok j) :
    save_dict env d fs = (.ok (sanitize_contexts d), fs) := by
  simp only [save_dict, hj, hopen, Bool.false_eq_true, if_false]

/-- C2 witness: a concrete failed-open save returns without error and
leaves the existing target file as it was. -/
theorem claim_C2_witness :
    save_dict envOpenFail dC1w fsC2 = (.ok (sanitize_contexts dC1w), fsC2) :=
  claim_C2 envOpenFail dC1w fsC2 jC1w rfl rfl

/-- C2 counterexample to the claim as stated: opening the staging file
fails, yet no hard error is raised (`Except.ok`) and the target file
keeps its old content. -/
theorem claim_C2_cex :
    (save_dict envOpenFail dC1w fsC2).1 = Except.ok dC1w ∧
    (save_dict envOpenFail dC1w fsC2).2.target = some (JsonValue.str "old") :=
  ⟨rfl, rfl⟩

/-- C3: serializing a well-formed dictionary (unique keys, valid working
directories) and loading the resulting document yields a dictionary with
the same active context and the same (context, alias, definition)
triples. -/
theorem claim_C3 (d d₀ : AliasDict) (fields : List (String × JsonValue))
    (hwf : wellFormed d = true)
    (hj : to_json d = .ok (.obj fields)) :
    (load_dict fields d₀).map AliasDict.active_context = .ok d.active_context ∧
    (load_dict fields d₀).map triples = .ok (triples d) := by
  have hto := to_json_of_wf d hwf
  rw [hj] at hto
  have hfields : fields = [("active-context", .str d.active_context),
                          ("contexts", .obj (serContexts d.aliases))] := by
    injection hto with h1
    injection h1 with h2
  subst hfields
  rw [load_of_to_json d d₀ hwf]
  exact ⟨rfl, rfl⟩

/-- C3 witness: round trip of a concrete two-context dictionary. -/
theorem claim_C3_witness :
    (load_dict fieldsC3w d0w).map AliasDict.active_context = .ok dC3w.active_context ∧
    (load_dict fieldsC3w d0w).map triples = .ok (triples dC3w) :=
  claim_C3 dC3w d0w fieldsC3w rfl rfl

/-- C4 (amended): for every **non-empty** document lacking the
`"active-context"` key, loading parses the whole top level as flat alias
entries into the `"default"` context with active context `"default"`, and
an absent, non-string or empty working-directory value defaults to
`"default"`.  (An empty top-level object instead takes the lenient early
return: the context map is cleared but the active context keeps its
pre-load value.) -/
theorem claim_C4 (records : List (String × JsonValue)) (d : AliasDict) (ctx : AliasContext)
    (hne : records ≠ [])
    (hno : lookupKV "active-context" records = none)
    (hparse : records_to_context records [] = .ok ctx) :
    load_dict records d
      = .ok { d with active_context := "default", aliases := [("default", ctx)] } ∧
    ∀ record : List (String × JsonValue),
      (isStringQ (objLookup record "working-directory") = false ∨
        toStringQ (objLookup record "working-directory") = "") →
      read_working_directory record = "default" := by
  constructor
  · simp only [load_dict]
    rw [if_neg (by simpa [List.isEmpty_iff] using hne)]
    simp only [hno, Option.isSome_none, Bool.false_eq_true, if_false, hparse]
    rfl
  · intro record hcond
    have hneg : ¬(isStringQ (objLookup record "working-directory")
        ∧ toStringQ (objLookup record "working-directory") ≠ "") := by
      rintro ⟨hs, hne'⟩
      rcases hcond with hfalse | hempty
      · rw [hs] at hfalse; cases hfalse
      · exact hne' hempty
    simp only [read_working_directory]
    rw [if_neg hneg]

/-- C4 witness: the legacy one-alias document loads into the `"default"`
context with a defaulted working directory. -/
theorem claim_C4_witness :
    load_dict recordsC4 dC4
      = .ok { active_context := "default",
              aliases := [("default", [("x", ⟨"vm1", "ls", "default"⟩)])],
              modified := false } :=
  (claim_C4 recordsC4 dC4 [("x", ⟨"vm1", "ls", "default"⟩)]
    (by simp [recordsC4]) rfl rfl).1

/-- C4 counterexample to the claim as stated: the empty JSON object lacks
`"active-context"`, yet loading it leaves the active context at its
pre-load value `"x"` instead of setting it to `"default"`. -/
theorem claim_C4_cex :
    lookupKV "active-context" ([] : List (String × JsonValue)) = none ∧
    load_dict [] dC4 = .ok { active_context := "x", aliases := [], modified := false } ∧
    ("x" : String) ≠ "default" :=
  ⟨rfl, rfl, by decide⟩

/-- C5: `remove_aliases_for_instance` removes from the active context
exactly the aliases whose instance matches, returns their names in
encounter order, leaves every other context unchanged, keeps the active
context name, and the final dirty flag is the old one or-ed with whether
anything was removed. -/
theorem claim_C5 (inst : String) (d : AliasDict) :
    (remove_aliases_for_instance inst d).1
        = (((lookupKV d.active_context d.aliases).getD []).filter
            (fun a => a.2.instance_ == inst)).map Prod.fst ∧
    lookupKV d.active_context (remove_aliases_for_instance inst d).2.aliases
        = some (((lookupKV d.active_context d.aliases).getD []).filter
            (fun a => a.2.instance_ != inst)) ∧
    (∀ c, c ≠ d.active_context →
        lookupKV c (remove_aliases_for_instance inst d).2.aliases
          = lookupKV c d.aliases) ∧
    (remove_aliases_for_instance inst d).2.modified
        = (d.modified || !(remove_aliases_for_instance inst d).1.isEmpty) ∧
    (remove_aliases_for_instance inst d).2.active_context = d.active_context := by
  refine ⟨?_, ?_, ?_, rfl, rfl⟩
  · simp only [remove_aliases_for_instance]
    exact remove_matching_fst inst _
  · simp only [remove_aliases_for_instance]
    rw [mapSet_lookup_self, remove_matching_snd]
  · intro c hcne
    simp only [remove_aliases_for_instance]
    exact mapSet_lookup_other _ _ _ _ hcne

/-- C5 witness: on a concrete dictionary, the aliases of `vm1` are removed
from the active context in order and the other context is untouched. -/
theorem claim_C5_witness :
    (remove_aliases_for_instance "vm1" dC5).1 = ["ll", "l2"] ∧
    lookupKV "work" (remove_aliases_for_instance "vm1" dC5).2.aliases
      = lookupKV "work" dC5.aliases :=
  ⟨(claim_C5 "vm1" dC5).1.trans rfl, (claim_C5 "vm1" dC5).2.2.1 "work" (by decide)⟩

/-- C6: `sanitize_contexts` keeps exactly the contexts that are active or
non-empty (so the active context survives even when empty), and the dirty
flag becomes the old one or-ed with whether any context was flagged. -/
theorem claim_C6 (d : AliasDict) (hnd : keysNodup d.aliases = true) :
    (sanitize_contexts d).aliases
        = d.aliases.filter (fun c => !empty_nonactive d.active_context c) ∧
    (sanitize_contexts d).modified
        = (d.modified || d.aliases.any (empty_nonactive d.active_context)) ∧
    (sanitize_contexts d).active_context = d.active_context :=
  ⟨sanitize_aliases_eq d hnd, sanitize_modified_eq d, sanitize_active_eq d⟩

/-- C6 witness: on a concrete dictionary the empty non-active context is
pruned, the empty active context is kept, and `modified` is set. -/
theorem claim_C6_witness :
    (sanitize_contexts dC6).aliases
        = dC6.aliases.filter (fun c => !empty_nonactive dC6.active_context c) ∧
    (sanitize_contexts dC6).modified
        = (dC6.modified || dC6.aliases.any (empty_nonactive dC6.active_context)) ∧
    (sanitize_contexts dC6).active_context = dC6.active_context :=
  claim_C6 dC6 rfl

/-- C7: saving a dictionary that holds an alias with an invalid working
directory aborts with an error raised by serialization, before any file
is created or touched: the filesystem state is returned unchanged. -/
theorem claim_C7 (env : FileOpsEnv) (d : AliasDict) (fs : FSState)
    (c : String × AliasContext) (a : String × AliasDefinition)
    (hnd : keysNodup d.aliases = true)
    (hc : c ∈ d.aliases) (ha : a ∈ c.2)
    (hbad : valid_wd a.2.working_directory = false) :
    ∃ e, save_dict env d fs = (.error e, fs) := by
  have hcs : c ∈ (sanitize_contexts d).aliases := by
    rw [sanitize_aliases_eq d hnd]
    refine List.mem_filter.mpr ⟨hc, ?_⟩
    have hne : c.2.isEmpty = false := by
      cases c2 : c.2
      · rw [c2] at ha; cases ha
      · simp
    simp [empty_nonactive, hne]
  cases hj : to_json (sanitize_contexts d) with
  | ok j =>
      exfalso
      have hvalid := to_json_ok_valid _ _ hj c hcs a ha
      rw [hbad] at hvalid
      cases hvalid
  | error e =>
      refine ⟨e, ?_⟩
      simp only [save_dict, hj]

/-- C7 witness: saving a concrete dictionary holding the working
directory `"bogus"` errors out with the filesystem unchanged. -/
theorem claim_C7_witness :
    ∃ e, save_dict envAllOk dC7 fsC2 = (.error e, fsC2) :=
  claim_C7 envAllOk dC7 fsC2
    ("default", [("x", ⟨"vm", "c", "bogus"⟩)]) ("x", ⟨"vm", "c", "bogus"⟩)
    rfl (by decide) (by decide) rfl

/-- C8: adding a fresh alias succeeds and is immediately readable; adding
the same name again fails and leaves the stored definition unchanged. -/
theorem claim_C8 (a : String) (dfn dfn' : AliasDefinition) (d : AliasDict)
    (h : lookupKV a ((lookupKV d.active_context d.aliases).getD []) = none) :
    (add_alias a dfn d).1 = true ∧
    get_alias a (add_alias a dfn d).2 = some dfn ∧
    (add_alias a dfn' (add_alias a dfn d).2).1 = false ∧
    get_alias a (add_alias a dfn' (add_alias a dfn d).2).2 = some dfn := by
  have hL : lookupKV a (((lookupKV d.active_context d.aliases).getD []) ++ [(a, dfn)])
      = some dfn := by
    rw [lookupKV_append_of_none _ _ _ h]
    simp [lookupKV]
  have h1 : add_alias a dfn d
      = (true, { d with
          aliases := mapSet d.active_context
            (((lookupKV d.active_context d.aliases).getD []) ++ [(a, dfn)]) d.aliases,
          modified := true }) := by
    simp only [add_alias, h]
  refine ⟨by rw [h1], ?_, ?_, ?_⟩
  · rw [h1]
    simp only [get_alias, mapSet_lookup_self]
    exact hL
  · rw [h1]
    simp only [add_alias, mapSet_lookup_self, Option.getD_some, hL]
  · rw [h1]
    simp only [add_alias, mapSet_lookup_self, Option.getD_some, hL]
    simp only [get_alias, mapSet_lookup_self]
    exact hL

/-- C8 witness: a fresh alias on a concrete dictionary. -/
theorem claim_C8_witness :
    (add_alias "new" ⟨"vm9", "cat", "map"⟩ dC8).1 = true ∧
    get_alias "new" (add_alias "new" ⟨"vm9", "cat", "map"⟩ dC8).2
      = some ⟨"vm9", "cat", "map"⟩ ∧
    (add_alias "new" ⟨"zz", "zz", "zz"⟩
      (add_alias "new" ⟨"vm9", "cat", "map"⟩ dC8).2).1 = false ∧
    get_alias "new" (add_alias "new" ⟨"zz", "zz", "zz"⟩
      (add_alias "new" ⟨"vm9", "cat", "map"⟩ dC8).2).2
      = some ⟨"vm9", "cat", "map"⟩ :=
  claim_C8 "new" ⟨"vm9", "cat", "map"⟩ ⟨"zz", "zz", "zz"⟩ dC8 rfl

/-- C9: while parsing the alias entries of one context, an entry whose
value is the empty JSON object stops the loop: the entry itself and every
entry after it are dropped without being parsed and without an error,
whatever came before. -/
theorem claim_C9 (pre : List (String × JsonValue)) (a : String)
    (rest : List (String × JsonValue)) (acc : AliasContext) :
    records_to_context (pre ++ (a, JsonValue.obj []) :: rest) acc
      = records_to_context pre acc ∧
    records_to_context ((a, JsonValue.obj []) :: rest) acc = .ok acc := by
  refine ⟨?_, rfl⟩
  induction pre generalizing acc with
  | nil => rfl
  | cons p pre ih =>
      obtain ⟨n, v⟩ := p
      cases hemp : (toObjectQ v).isEmpty
      · simp only [List.cons_append, records_to_context, hemp, Bool.false_eq_true, if_false]
        cases hchk : check_working_directory_string (read_working_directory (toObjectQ v)) with
        | error e => rfl
        | ok u => exact ih _
      · simp only [List.cons_append, records_to_context, hemp, if_true]

/-- C10: with no entry for the active context, `remove_alias` returns
`false` and `remove_aliases_for_instance` returns `[]`, each inserting an
empty context under the active name at the end of the map, with the dirty
flag and all pre-existing contexts untouched. -/
theorem claim_C10 (a inst : String) (d : AliasDict)
    (h : lookupKV d.active_context d.aliases = none) :
    (remove_alias a d).1 = false ∧
    (remove_alias a d).2.aliases = d.aliases ++ [(d.active_context, [])] ∧
    (remove_alias a d).2.modified = d.modified ∧
    (remove_alias a d).2.active_context = d.active_context ∧
    (remove_aliases_for_instance inst d).1 = [] ∧
    (remove_aliases_for_instance inst d).2.aliases
      = d.aliases ++ [(d.active_context, [])] ∧
    (remove_aliases_for_instance inst d).2.modified = d.modified ∧
    (remove_aliases_for_instance inst d).2.active_context = d.active_context := by
  have hset := mapSet_of_lookup_none d.active_context ([] : AliasContext) d.aliases h
  refine ⟨?_, ?_, ?_, ?_, ?_, ?_, ?_, ?_⟩
  · simp only [remove_alias, h]
    rfl
  · simp only [remove_alias, h]
    simpa using hset
  · simp only [remove_alias, h]
    rfl
  · simp only [remove_alias, h]
    rfl
  · simp only [remove_aliases_for_instance, h]
    rfl
  · simp only [remove_aliases_for_instance, h]
    simpa [remove_matching] using hset
  · simp only [remove_aliases_for_instance, h]
    simp [remove_matching]
  · simp only [remove_aliases_for_instance, h]

/-- C10 witness: a concrete dictionary whose active context is missing. -/
theorem claim_C10_witness :
    (remove_alias "q" dC10).1 = false ∧
    (remove_alias "q" dC10).2.aliases = dC10.aliases ++ [(dC10.active_context, [])] ∧
    (remove_alias "q" dC10).2.modified = dC10.modified ∧
    (remove_alias "q" dC10).2.active_context = dC10.active_context ∧
    (remove_aliases_for_instance "vm" dC10).1 = [] ∧
    (remove_aliases_for_instance "vm" dC10).2.aliases
      = dC10.aliases ++ [(dC10.active_context, [])] ∧
    (remove_aliases_for_instance "vm" dC10).2.modified = dC10.modified ∧
    (remove_aliases_for_instance "vm" dC10).2.active_context = dC10.active_context :=
  claim_C10 "q" "vm" dC10 rfl
